import Mathlib

/-!
Verification of the factor-analysis engine in `src/factor_analysis.py`
(`ctanny/fdp_factor_model`).

The Python source is a pandas / scikit-learn / statsmodels script.  We embed
it shallowly:

* prices and returns are exact rationals (`ℚ`) for the returns pipeline and
  the dense (OLS) estimator; the sparse (LassoLars) pipeline, whose
  standardization step divides by a standard deviation (a square root), is
  embedded over `ℝ`;
* a pandas `DataFrame` becomes `Frame`: a list of column names, a date
  index, and column-major data where a missing cell (`NaN`) is `none`;
* Python exceptions become `Except PyErr`;
* the numeric cores supplied by the libraries (the pinv least-squares solve
  inside `statsmodels.OLS`, the LARS path inside scikit-learn, the library's
  R² computation) are opaque to the script and are taken as explicit
  function parameters; every piece of glue the script itself performs
  (standardization, AIC-based selection, unit-norm rescaling, constant
  handling, alignment, renaming, error propagation) is modelled concretely
  from the library's documented semantics, noted at each definition.
-/

set_option autoImplicit false

namespace FactorModel

/-! ### Dates -/

/-- Calendar date (year, month, day), as the `datetime` index values of the
price frames.  Comparisons go through a monotone numeric key. -/
structure Date where
  y : Nat
  m : Nat
  d : Nat
deriving DecidableEq

/-- Monotone encoding of a calendar date (months have at most 31 days). -/
def Date.key (a : Date) : Nat := (a.y * 12 + a.m) * 32 + a.d

/-- Month index of a date, the grouping key of `resample('M')`. -/
def Date.ym (a : Date) : Nat := a.y * 12 + a.m

/-! ### Frames -/

/-- Shallow model of a pandas DataFrame with a date index: column names,
index, and column-major data; `none` is a missing cell (NaN). -/
structure Frame (α : Type) where
  colNames : List String
  index : List Date
  cols : List (List (Option α))
deriving DecidableEq

/-- Python exceptions that the script can let escape. -/
inductive PyErr where
  /-- Referencing a local variable no branch assigned. -/
  | unboundLocalError
  /-- pandas label lookup failure, e.g. `drop` of an absent row label. -/
  | keyError
  /-- Shape/NaN rejection inside the numeric libraries
  (statsmodels/ numpy/ scikit-learn all reject NaN input or mismatched
  shapes with an exception; we do not distinguish which). -/
  | valueError
deriving DecidableEq

def emptyFrame {α : Type} : Frame α := ⟨[], [], []⟩

/-- Replace the column names, as the assignment `df.columns = names`.
In every reachable call in the source the lengths agree by construction. -/
def setColNames {α : Type} (names : List String) (f : Frame α) : Frame α :=
  { f with colNames := names }

/-! ### The price provider and `get_stock_prices`

`get_stock_prices` (src lines 69-89) is I/O glue: it downloads a JSON
series, indexes it by date and sorts the index.  The provider is the
external collaborator of the spec; we take it as a function `fetch` from a
symbol to its (date, adjusted close) observations and keep only the parts
the core depends on: the result is the fetched series sorted by date. -/

/-- Insert one observation into a date-sorted series. -/
def insertByKey (p : Date × ℚ) : List (Date × ℚ) → List (Date × ℚ)
  | [] => [p]
  | q :: t => if p.1.key ≤ q.1.key then p :: q :: t else q :: insertByKey p t

/-- Sort a series by date, as `set_index('date').sort_index()`. -/
def sortSeries (s : List (Date × ℚ)) : List (Date × ℚ) := s.foldr insertByKey []

/-- Model of `get_stock_prices(symbol, ...)[['adjusted_close']]`:
the provider's series for the symbol, sorted by date. -/
def get_stock_prices (fetch : String → List (Date × ℚ)) (sym : String) :
    List (Date × ℚ) :=
  sortSeries (fetch sym)

/-- One-column frame holding a price series (column name
`adjusted_close`, as fetched). -/
def seriesFrame (s : List (Date × ℚ)) : Frame ℚ :=
  ⟨["adjusted_close"], s.map (·.1), [s.map (fun p => some p.2)]⟩

/-! ### Alignment: `pd.concat([...], axis=1)` (outer join on the index) -/

/-- Insert a date into a date-sorted index, keeping one entry per date. -/
def insertDateKey (d : Date) : List Date → List Date
  | [] => [d]
  | b :: t =>
    if d.key < b.key then d :: b :: t
    else if b.key < d.key then b :: insertDateKey d t
    else b :: t

/-- Sorted union of two date-sorted indices. -/
def mergeUnion (l1 l2 : List Date) : List Date := l1.foldr insertDateKey l2

/-- Value of a column at a date, through its own index (reindexing). -/
def lookupDate {α : Type} (idx : List Date) (c : List (Option α)) (d : Date) :
    Option α :=
  match (idx.zip c).find? (fun p => p.1 == d) with
  | some p => p.2
  | none => none

/-- Model of `pd.concat([f, g], axis=1)`: outer join of the two date
indices; every column reindexed onto the union, missing dates `none`. -/
def concatOuter {α : Type} (f g : Frame α) : Frame α :=
  let idx := mergeUnion f.index g.index
  { colNames := f.colNames ++ g.colNames
    index := idx
    cols := f.cols.map (fun c => idx.map (lookupDate f.index c)) ++
            g.cols.map (fun c => idx.map (lookupDate g.index c)) }

/-- The accumulation loop shared by `get_returns` (src 104-111) and
`retrieve_factor_returns` (src 145-152): fetch every symbol and concat the
price columns left to right. -/
def buildPrices (fetch : String → List (Date × ℚ)) (syms : List String) :
    Frame ℚ :=
  syms.foldl
    (fun acc s => concatOuter acc (seriesFrame (get_stock_prices fetch s)))
    emptyFrame

/-! ### `resample('M').last()` -/

/-- Last non-missing value of a column within a calendar month
(`Resampler.last` skips NaN).  The index is date-sorted, so the last match
in list order is the latest date of the month. -/
def lastInMonth {α : Type} (idx : List Date) (c : List (Option α))
    (mo : Nat) : Option α :=
  (idx.zip c).foldl
    (fun acc p => if p.1.ym = mo ∧ p.2.isSome = true then p.2 else acc) none

/-- Every month index from the first to the last date of the index
(`resample` emits one bin per period over the full range, empty bins
included). -/
def monthsOf (idx : List Date) : List Nat :=
  match idx with
  | [] => []
  | d :: t =>
    let lo := (t.map Date.ym).foldl min d.ym
    let hi := (t.map Date.ym).foldl max d.ym
    (List.range (hi + 1 - lo)).map (lo + ·)

/-- Model of `df.resample('M').last()`: one row per calendar month between
the first and last index date; each cell the month's last observation.
The new index entries are month labels. -/
def resampleM {α : Type} (f : Frame α) : Frame α :=
  let mos := monthsOf f.index
  { colNames := f.colNames
    index := mos.map (fun mo => ⟨mo / 12, mo % 12, 31⟩)
    cols := f.cols.map (fun c => mos.map (lastInMonth f.index c)) }

/-! ### `pct_change()` and `dropna()` -/

/-- Forward fill of missing cells (pandas `pct_change` pads missing data
before differencing; leading gaps stay missing). -/
def ffill {α : Type} (last : Option α) : List (Option α) → List (Option α)
  | [] => []
  | some v :: t => some v :: ffill (some v) t
  | none :: t => last :: ffill last t

/-- Model of one column of `df.pct_change()`: pad, then
`r[t] = p[t]/p[t-1] - 1`; the first row and rows whose previous padded
value is still missing are `none`. -/
def pctCol (c : List (Option ℚ)) : List (Option ℚ) :=
  let f := ffill none c
  (List.range c.length).map (fun t =>
    if t = 0 then none else
    match f.get? (t - 1), f.get? t with
    | some (some p), some (some q) => some (q / p - 1)
    | _, _ => none)

/-- Model of `df.pct_change()` over a frame. -/
def pctFrame (f : Frame ℚ) : Frame ℚ := { f with cols := f.cols.map pctCol }

/-- Does row `t` hold a value in every column? -/
def rowAllSome {α : Type} (cols : List (List (Option α))) (t : Nat) : Bool :=
  cols.all (fun c => match c.get? t with | some (some _) => true | _ => false)

/-- Model of `df.dropna()`: keep exactly the rows with no missing cell. -/
def dropna {α : Type} (f : Frame α) : Frame α :=
  let keep := (List.range f.index.length).filter (rowAllSome f.cols)
  { colNames := f.colNames
    index := keep.filterMap (fun t => f.index.get? t)
    cols := f.cols.map (fun c => keep.filterMap (fun t => c.get? t)) }

/-! ### `get_returns` (src 92-130) and `retrieve_factor_returns` (src 133-167)

Both fetch and concat their symbols' prices, dispatch on the frequency tag
with a `match` that has cases only for `'D'` and `'M'`, rename the columns
and return.  For any other tag no case assigns `df_returns`, and the
rename line `df_returns.columns = ...` raises `UnboundLocalError`. -/

def get_returns (fetch : String → List (Date × ℚ)) (tickers : List String)
    (frequency : String) : Except PyErr (Frame ℚ) :=
  let df_prices := buildPrices fetch tickers
  match frequency with
  | "D" => .ok (setColNames tickers (dropna (pctFrame df_prices)))
  | "M" => .ok (setColNames tickers (dropna (pctFrame (resampleM df_prices))))
  | _ => .error .unboundLocalError

def retrieve_factor_returns (fetch : String → List (Date × ℚ))
    (factors : List (String × String)) (frequency : String) :
    Except PyErr (Frame ℚ) :=
  let df_prices := buildPrices fetch (factors.map Prod.snd)
  match frequency with
  | "D" =>
    .ok (setColNames (factors.map Prod.fst) (dropna (pctFrame df_prices)))
  | "M" =>
    .ok (setColNames (factors.map Prod.fst)
      (dropna (pctFrame (resampleM df_prices))))
  | _ => .error .unboundLocalError

/-! ### `add_constant` (statsmodels)

`statsmodels.tools.add_constant(data, prepend=True, has_constant='skip')`:
prepend a column of ones, unless some column of `data` is already constant
and nonzero, in which case the data is returned unchanged. -/

/-- Is a (fully observed) column constant and nonzero, as statsmodels'
`ptp == 0` and `all != 0` test? -/
def isNonzeroConstCol (c : List ℚ) : Bool :=
  match c with
  | [] => false
  | v :: t => (v != 0) && t.all (· == v)

/-- Same test over a column with possible missing cells: a NaN never
compares equal, so any missing cell defeats the constant test. -/
def isNonzeroConstColOpt (c : List (Option ℚ)) : Bool :=
  match c with
  | [] => false
  | some v :: t => (v != 0) && t.all (· == some v)
  | none :: _ => false

/-- Number of rows of a column-major value matrix. -/
def nrowsOf (m : List (List ℚ)) : Nat :=
  match m with
  | [] => 0
  | c :: _ => c.length

/-- Model of `add_constant` on a raw value matrix (the `x.values` path of
`linear_reg`): the Bool records whether a column was actually added. -/
def add_constant_values (m : List (List ℚ)) : Bool × List (List ℚ) :=
  if m.any isNonzeroConstCol then (false, m)
  else (true, List.replicate (nrowsOf m) 1 :: m)

/-- Model of `add_constant` on a DataFrame (the `regression_vif` path):
the added column carries the reserved name `const`. -/
def add_constant_frame (X : Frame ℚ) : Frame ℚ :=
  if X.cols.any isNonzeroConstColOpt then X
  else ⟨"const" :: X.colNames, X.index,
        List.replicate X.index.length (some (1 : ℚ)) :: X.cols⟩

/-! ### `regression_vif` (src 170-178)

`variance_inflation_factor(X.values, i)` (statsmodels) regresses column
`i` on the remaining columns by OLS and returns `1 / (1 - rsquared)`.
The numeric fit inside the library is opaque to the script; we take the
library's R² computation as a function parameter `rsq` from (remaining
columns, column `i`) to the coefficient of determination of that fit.
The division is IEEE: with a exact linear dependence `rsquared == 1.`
and `1. / (1. - 1.)` evaluates to `inf` (a RuntimeWarning, not an
exception), which we model with an explicit infinite value. -/

/-- Result values of the VIF diagnostic: a finite rational or the IEEE
infinity produced by dividing a positive float by `0.0`. -/
inductive VifVal where
  | val (q : ℚ)
  | inf
deriving DecidableEq

/-- IEEE division `1 / d` for nonnegative `d`: infinity at `d = 0`. -/
def ieeeInv (d : ℚ) : VifVal :=
  if d = 0 then .inf else .val (1 / d)

/-- Read a fully observed column's values (`.values`); reachable calls
have no missing cells. -/
def stripCol {α : Type} [Zero α] (c : List (Option α)) : List α :=
  c.map (·.getD 0)

/-- Model of statsmodels' `variance_inflation_factor(m, i)` given the
library's R² function `rsq`. -/
def variance_inflation_factor (rsq : List (List ℚ) → List ℚ → ℚ)
    (m : List (List ℚ)) (i : Nat) : VifVal :=
  ieeeInv (1 - rsq (m.eraseIdx i) ((m.get? i).getD []))

/-- Table built by `regression_vif`: the `variables` column and the `VIF`
column, row `i` describing column `i` of the constant-augmented matrix. -/
structure VifTable where
  varNames : List String
  vifs : List VifVal
deriving DecidableEq

/-- Model of `regression_vif(X)` (src 170-178): `X = add_constant(X)`;
one VIF per column of the augmented matrix, in column order. -/
def regression_vif (rsq : List (List ℚ) → List ℚ → ℚ) (X : Frame ℚ) :
    VifTable :=
  let Xc := add_constant_frame X
  let m := Xc.cols.map stripCol
  ⟨Xc.colNames, (List.range Xc.cols.length).map (variance_inflation_factor rsq m)⟩

/-! ### `linear_reg` (src 181-205)

`linear_reg(y, x, add_const)`: when `add_const` is set, rebind `x` to a
defensive copy; then unconditionally `x = add_constant(x.values)` and fit
`OLS(y, x)`.  The numeric solve inside `OLS.fit()` (the default `pinv`
method: a Moore-Penrose pseudoinverse least-squares solve, total and
deterministic on finite inputs, also for exactly rank-deficient designs)
is opaque to the script and is taken as the function parameter `solver`
from (design matrix with the constant included, y) to the coefficient
vector.  statsmodels constructs `OLS` with the default `missing='none'`
and validates only the DESIGN: a NaN cell in the exog raises
(`MissingDataError` from the constant-handling check), and mismatched
lengths raise; a NaN in the dependent series is NOT checked — it
silently propagates through `pinv(X) @ y` into an all-NaN parameter
vector.  No exception of any kind is raised for rank deficiency.  With
an ndarray exog whose constant was added first, statsmodels names the
parameters `const, x1, ..., xk`. -/

/-- Fitted-model values the script reads back: parameter names and the
coefficient vector (`lm.params`); a `none` entry is a NaN coefficient. -/
structure OLSFit where
  names : List String
  params : List (Option ℚ)
deriving DecidableEq

/-- Parameter names assigned by statsmodels to an ndarray design. -/
def exogNames (added : Bool) (k : Nat) : List String :=
  let xs := (List.range k).map (fun i => "x" ++ toString (i + 1))
  if added then "const" :: xs else xs

/-- Outcome of `OLS(y, x).fit()` visible to the script, for a design
that passed the exog checks: with a fully observed dependent series the
pinv solve's coefficients, and with any NaN in the dependent series an
all-NaN parameter vector (statsmodels performs no endog check under
`missing='none'`). -/
def olsFitOf (solver : List (List ℚ) → List ℚ → List ℚ)
    (x : Frame ℚ) (y : List (Option ℚ)) : OLSFit :=
  let ac := add_constant_values (x.cols.map stripCol)
  let names := exogNames ac.1 x.cols.length
  if y.any (·.isNone) then ⟨names, List.replicate names.length none⟩
  else ⟨names, (solver ac.2 (stripCol y)).map some⟩

def linear_reg (solver : List (List ℚ) → List ℚ → List ℚ)
    (y : List (Option ℚ)) (x : Frame ℚ) (add_const : Bool) :
    Except PyErr OLSFit :=
  let x0 := if add_const then Frame.mk x.colNames x.index x.cols else x
  if x0.cols.any (fun c => c.any (·.isNone)) then .error .valueError
  else if y.length != x0.index.length
      || x0.cols.any (fun c => c.length != x0.index.length) then
    .error .valueError
  else .ok (olsFitOf solver x0 y)

/-! ### `multiple_lin_reg` (src 208-229)

Loops over the columns of `returns`, calling `linear_reg(returns[t],
factor_returns, True)` (the loop hard-codes `True`; the function's own
`add_const` argument is never used).  The per-ticker `lm.params` series
are concatenated as columns; then `df_results.drop('const', axis=0,
inplace=True)` (a `KeyError` if no `const` row exists), and the index and
columns are assigned to the factor and instrument names (pandas raises if
the lengths do not match).  The loop has no exception handling: the first
ticker whose fit raises aborts the whole call. -/

/-- Result table of the batch estimators: factor-name index, one column
per instrument, column-major data. -/
structure RTable (α : Type) where
  index : List String
  columns : List String
  data : List (List α)
deriving DecidableEq

/-- Python `for` loop over fallible per-element work: the first raised
exception aborts the whole loop and propagates. -/
def exceptMapList {α β : Type} (f : α → Except PyErr β) :
    List α → Except PyErr (List β)
  | [] => .ok []
  | x :: t =>
    match f x with
    | .error e => .error e
    | .ok b =>
      match exceptMapList f t with
      | .error e => .error e
      | .ok bs => .ok (b :: bs)

/-- One ticker's column of `df_results` after
`df_results.drop('const', axis=0, inplace=True)`: the fitted parameters
with the `const` row removed. -/
def dropConstRow (f : OLSFit) : List (Option ℚ) :=
  ((f.names.zip f.params).filter (fun q => q.1 != "const")).map Prod.snd

def multiple_lin_reg (solver : List (List ℚ) → List ℚ → List ℚ)
    (returns factor_returns : Frame ℚ) (add_const : Bool) :
    Except PyErr (RTable (Option ℚ)) :=
  match exceptMapList (fun p => linear_reg solver p.2 factor_returns true)
      (returns.colNames.zip returns.cols) with
  | .error e => .error e
  | .ok fits =>
    let rows := ((fits.head?.map OLSFit.names).getD [])
    if !rows.contains "const" then .error .keyError
    else if (rows.filter (· != "const")).length
        != factor_returns.colNames.length then
      .error .valueError
    else if fits.length != returns.colNames.length then .error .valueError
    else .ok ⟨factor_returns.colNames, returns.colNames,
              fits.map dropConstRow⟩

/-! ### `lasso_lars_regression` (src 232-268)

Per instrument the script runs two phases.  Phase 1:
`make_pipeline(StandardScaler(), LassoLarsIC(criterion="aic",
normalize=False)).fit(X, y)` — each column of `X` standardized in sample
(mean subtracted, divided by the population standard deviation;
scikit-learn maps a zero standard deviation to a unit scale), then the
LARS path on the standardized matrix, the library's AIC criterion
scored at every path step and `alpha_` taken from the first step
attaining the minimum (`np.argmin`).  The `normalize=` keyword the
script passes exists only in scikit-learn < 1.2, whose `LassoLarsIC`
scores each step as `n * MSE / (Var(y) + eps) + 2 * df` (Zou, Hastie,
Tibshirani 2007, eqns. 2.15-16): `MSE = RSS/n` of the step's residuals
on the preprocessed data, `Var(y)` the population variance of the
(centered) target, `eps` the float64 machine epsilon `2⁻⁵²`, and `df`
the number of coefficients of magnitude above that epsilon.
Phase 2: `LassoLars(alpha=alpha_, normalize=True).fit(X, y)`
on the *unstandardized* `X` — the fit centers the columns and `y`
(`fit_intercept=True`), divides each centered column by its Euclidean
norm (zero norms mapped to a unit scale), solves at the fixed penalty,
and divides the raw coefficients by the same norms to report them in the
original units.  `best_alpha_lasso.coef_` is what the script stores,
keyed by the factor names.  The LARS path itself and the fixed-penalty
solve live inside scikit-learn and are taken as the function parameters
`path` and `solve`; their inputs and the uses of their outputs are
modelled concretely. -/

/-- Arithmetic mean of a list of reals (0 on the empty list). -/
noncomputable def meanR (l : List ℝ) : ℝ := l.sum / l.length

/-- Population variance (`ddof = 0`, as scikit-learn's scaler). -/
noncomputable def varP (l : List ℝ) : ℝ := meanR (l.map (fun x => (x - meanR l) ^ 2))

/-- Population standard deviation. -/
noncomputable def stdP (l : List ℝ) : ℝ := Real.sqrt (varP l)

/-- Scale used by `StandardScaler`: the standard deviation, with zero
mapped to 1 (`_handle_zeros_in_scale`). -/
noncomputable def scaleOf (l : List ℝ) : ℝ :=
  if stdP l = 0 then 1 else stdP l

/-- Model of `StandardScaler().fit_transform(X)`: per column, subtract
the mean and divide by the standard deviation, both computed on the very
observations being fit. -/
noncomputable def standardizeCols (X : List (List ℝ)) : List (List ℝ) :=
  X.map (fun c => c.map (fun v => (v - meanR c) / scaleOf c))

/-- Subtract a column's own mean from each entry (`fit_intercept=True`
preprocessing). -/
noncomputable def centerCol (c : List ℝ) : List ℝ := c.map (fun v => v - meanR c)

/-- One point of the LARS regularization path: its penalty strength and
coefficient vector. -/
structure LarsStep where
  alpha : ℝ
  coef : List ℝ

/-- Prediction at observation `t` of a column-major design against a
coefficient vector. -/
noncomputable def colsDot (X : List (List ℝ)) (c : List ℝ) (t : Nat) : ℝ :=
  ((X.zip c).map (fun p => p.2 * ((p.1.get? t).getD 0))).sum

/-- Residual sum of squares of a path step. -/
noncomputable def rssOf (X : List (List ℝ)) (y : List ℝ) (c : List ℝ) : ℝ :=
  ((List.range y.length).map
    (fun t => ((y.get? t).getD 0 - colsDot X c t) ^ 2)).sum

/-- Machine epsilon of float64, `np.finfo("float64").eps`. -/
noncomputable def eps64 : ℝ := 1 / 2 ^ 52

/-- Degrees of freedom at a path step, as scikit-learn < 1.2 counts
them: the number of coefficients whose magnitude exceeds the float64
machine epsilon (`np.abs(coef) > eps`). -/
noncomputable def dfOf (c : List ℝ) : ℝ :=
  (((c.filter (fun v => eps64 < |v|)).length : ℕ) : ℝ)

/-- The AIC criterion value of a path step as `LassoLarsIC` of
scikit-learn < 1.2 computes it:
`n_samples * mean_squared_error / (sigma2 + eps) + 2 * degrees_of_freedom`
with `mean_squared_error = RSS/n` of the step's residuals and
`sigma2 = np.var(y)` the population variance of the target. -/
noncomputable def aicOf (X : List (List ℝ)) (y : List ℝ) (st : LarsStep) :
    ℝ :=
  (y.length : ℝ) * (rssOf X y st.coef / (y.length : ℝ)) / (varP y + eps64)
    + 2 * dfOf st.coef

/-- One comparison step of `np.argmin`: keep the incumbent on ties, so
the earliest minimal step wins. -/
noncomputable def selBetter (score : LarsStep → ℝ)
    (best : Option LarsStep) (s : LarsStep) : Option LarsStep :=
  match best with
  | none => some s
  | some b => if score s < score b then some s else some b

/-- First step of the path attaining the minimal score (`np.argmin`
keeps the earliest index on ties; the path runs from the most to the
least regularized step, so ties prefer the smaller `df`). -/
noncomputable def selectStep (score : LarsStep → ℝ)
    (steps : List LarsStep) : Option LarsStep :=
  steps.foldl (selBetter score) none

/-- Phase 1 of the sparse estimator: standardize the design, center it
and `y` again inside the estimator (`fit_intercept=True`; on an already
standardized matrix the second centering is the identity, proved below),
run the LARS path, and pick the AIC-minimal step. -/
noncomputable def phase1Sel (path : List (List ℝ) → List ℝ → List LarsStep)
    (X : List (List ℝ)) (y : List ℝ) : Option LarsStep :=
  let Xs := (standardizeCols X).map centerCol
  let yc := centerCol y
  selectStep (aicOf Xs yc) (path Xs yc)

/-- `alpha_` read back from Phase 1.  The library's path always contains
at least the fully regularized all-zero step; the `0` default covers
only the unreachable empty-path case of an arbitrary `path` parameter. -/
noncomputable def alphaAIC (path : List (List ℝ) → List ℝ → List LarsStep)
    (X : List (List ℝ)) (y : List ℝ) : ℝ :=
  match phase1Sel path X y with
  | some st => st.alpha
  | none => 0

/-- Euclidean norm of a column. -/
noncomputable def l2norm (c : List ℝ) : ℝ :=
  Real.sqrt ((c.map (fun v => v ^ 2)).sum)

/-- Norm-scale with zero mapped to 1, as the library's preprocessing. -/
noncomputable def normScale (c : List ℝ) : ℝ :=
  if l2norm c = 0 then 1 else l2norm c

/-- Model of `LassoLars(alpha, normalize=True).fit(X, y).coef_`: center
columns and target, scale each centered column to unit norm, solve at
the fixed penalty, and undo the scaling on the coefficients. -/
noncomputable def lassoNormFit
    (solve : ℝ → List (List ℝ) → List ℝ → List ℝ) (alpha : ℝ)
    (X : List (List ℝ)) (y : List ℝ) : List ℝ :=
  let Xc := X.map centerCol
  let yc := centerCol y
  let Xn := Xc.map (fun c => c.map (fun v => v / normScale c))
  let craw := solve alpha Xn yc
  (craw.zip Xc).map (fun p => p.1 / normScale p.2)

/-- The whole two-phase fit for one instrument (the body of the loop in
src 243-258). -/
noncomputable def fitOneSparse
    (path : List (List ℝ) → List ℝ → List LarsStep)
    (solve : ℝ → List (List ℝ) → List ℝ → List ℝ)
    (X : List (List ℝ)) (y : List ℝ) : List ℝ :=
  lassoNormFit solve (alphaAIC path X y) X y

/-- Body of the instrument loop of `lasso_lars_regression` (src 243-264):
`y = returns[ticker]`, `X = factor_returns.copy()` (a fresh, value-equal
frame), the scikit-learn input validation (NaN cells or mismatched
lengths raise), the two-phase fit, then `df_temp = pd.DataFrame(data=
coef_, index=factor_returns.columns, columns=[ticker])` (pandas raises
when the data and index lengths differ; the library's `coef_` always has
one entry per feature). -/
noncomputable def lassoLoopBody
    (path : List (List ℝ) → List ℝ → List LarsStep)
    (solve : ℝ → List (List ℝ) → List ℝ → List ℝ)
    (factor_returns : Frame ℝ) (p : String × List (Option ℝ)) :
    Except PyErr (List ℝ) :=
  let y := p.2
  let X := Frame.mk factor_returns.colNames factor_returns.index
    factor_returns.cols
  if y.any (·.isNone) || X.cols.any (fun c => c.any (·.isNone)) then
    .error PyErr.valueError
  else if y.length != X.index.length
      || X.cols.any (fun c => c.length != X.index.length) then
    .error PyErr.valueError
  else
    let coef := fitOneSparse path solve (X.cols.map stripCol) (stripCol y)
    if coef.length != factor_returns.colNames.length then
      .error PyErr.valueError
    else .ok coef

/-- Model of `lasso_lars_regression(returns, factor_returns)`
(src 232-268): loop over the instruments; per instrument a fresh copy of
the design, the two-phase fit, and a one-column frame indexed by the
factor names; the column concat of those frames is returned.  The loop
has no exception handling, so the first fit that raises aborts the whole
call. -/
noncomputable def lasso_lars_regression
    (path : List (List ℝ) → List ℝ → List LarsStep)
    (solve : ℝ → List (List ℝ) → List ℝ → List ℝ)
    (returns factor_returns : Frame ℝ) : Except PyErr (RTable ℝ) :=
  match exceptMapList (lassoLoopBody path solve factor_returns)
      (returns.colNames.zip returns.cols) with
  | .error e => .error e
  | .ok coefs => .ok ⟨factor_returns.colNames, returns.colNames, coefs⟩

/-! ### Reference world for the aliasing/mutation claims

The estimators receive frames the caller goes on using.  To state that no
estimator writes through its arguments we re-run each estimator over an
explicit heap of frames: references are heap positions, `alloc` appends a
fresh frame, and every library step is classified by its documented
allocation behaviour — `DataFrame.copy()` and `add_constant` return fresh
objects, `pd.concat` and `pd.DataFrame(...)` build fresh frames,
`StandardScaler` inside a pipeline copies (`copy=True`), and the only
in-place operations in the source (`df_results.drop(..., inplace=True)`
and the `.index`/`.columns` assignments) hit frames created locally in
the same call, never an argument.  The heap versions therefore only ever
`alloc`; the theorems show lookups of pre-existing references are
unchanged. -/

/-- Heap of frames; a reference is a position, allocation appends. -/
abbrev World (α : Type) : Type := List (Frame α)

/-- Allocate a fresh frame, returning the new world and the reference. -/
def worldAlloc {α : Type} (w : World α) (fd : Frame α) : World α × Nat :=
  (w ++ [fd], w.length)

/-- Heap version of `regression_vif`: `X = add_constant(X)` rebinds the
local name to a freshly allocated frame; the `vif` frame is local. -/
def regression_vifH (rsq : List (List ℚ) → List ℚ → ℚ) (w : World ℚ)
    (xr : Nat) : World ℚ × Option VifTable :=
  match w.get? xr with
  | none => (w, none)
  | some X =>
    ((worldAlloc w (add_constant_frame X)).1, some (regression_vif rsq X))

/-- Heap version of `linear_reg`: with `add_const` set, `x.copy()`
allocates a fresh, value-equal frame; `add_constant(x.values)` and the
`OLS` fit allocate arrays and a model object and only read the frame. -/
def linear_regH (solver : List (List ℚ) → List ℚ → List ℚ) (w : World ℚ)
    (yv : List (Option ℚ)) (xr : Nat) (ac : Bool) :
    World ℚ × Except PyErr OLSFit :=
  match w.get? xr with
  | none => (w, .error .keyError)
  | some x =>
    let w1 := if ac then (worldAlloc w (Frame.mk x.colNames x.index x.cols)).1
              else w
    (w1, linear_reg solver yv x ac)

/-- Heap version of `multiple_lin_reg`: each loop iteration's
`linear_reg(..., True)` allocates one defensive copy of the design; the
accumulated `df_results` frame is local.  (On an aborted loop fewer
copies are allocated; the heap effect is still allocation-only.) -/
def multiple_lin_regH (solver : List (List ℚ) → List ℚ → List ℚ)
    (w : World ℚ) (retsR facsR : Nat) (ac : Bool) :
    World ℚ × Except PyErr (RTable (Option ℚ)) :=
  match w.get? retsR, w.get? facsR with
  | some rets, some facs =>
    let wn := rets.colNames.foldl
      (fun acc _ =>
        (worldAlloc acc (Frame.mk facs.colNames facs.index facs.cols)).1) w
    (wn, multiple_lin_reg solver rets facs ac)
  | _, _ => (w, .error .keyError)

/-- Heap version of `lasso_lars_regression`: each iteration's
`factor_returns.copy()` allocates; the scikit-learn fits copy their
inputs (`copy=True`); `df_temp` and `df_results` are local frames. -/
noncomputable def lasso_lars_regressionH
    (path : List (List ℝ) → List ℝ → List LarsStep)
    (solve : ℝ → List (List ℝ) → List ℝ → List ℝ) (w : World ℝ)
    (retsR facsR : Nat) : World ℝ × Except PyErr (RTable ℝ) :=
  match w.get? retsR, w.get? facsR with
  | some rets, some facs =>
    let wn := rets.colNames.foldl
      (fun acc _ =>
        (worldAlloc acc (Frame.mk facs.colNames facs.index facs.cols)).1) w
    (wn, lasso_lars_regression path solve rets facs)
  | _, _ => (w, .error .keyError)

/-! ### General lemmas -/

theorem get?_worldAlloc {α : Type} (w : World α) (fd : Frame α) (r : Nat)
    (h : r < w.length) : (worldAlloc w fd).1.get? r = w.get? r :=
  List.get?_append h

theorem get?_foldl_alloc {α β : Type} (g : β → Frame α) (l : List β)
    (w : World α) (r : Nat) (h : r < w.length) :
    (l.foldl (fun acc x => (worldAlloc acc (g x)).1) w).get? r = w.get? r := by
  induction l generalizing w with
  | nil => rfl
  | cons x t ih =>
    simp only [List.foldl_cons]
    have hlen : r < (worldAlloc w (g x)).1.length := by
      simp only [worldAlloc, List.length_append, List.length_singleton]
      omega
    rw [ih _ hlen, get?_worldAlloc _ _ _ h]

/-- An element-wise loop that returned without raising succeeded on every
element. -/
theorem exceptMapList_ok_forall {α β : Type} (f : α → Except PyErr β)
    (l : List α) (r : List β) (h : exceptMapList f l = .ok r) :
    ∀ a ∈ l, ∃ b, f a = .ok b := by
  induction l generalizing r with
  | nil => intro a ha; cases ha
  | cons x t ih =>
    intro a ha
    unfold exceptMapList at h
    cases hx : f x with
    | error e => rw [hx] at h; cases h
    | ok b =>
      rw [hx] at h
      cases ht : exceptMapList f t with
      | error e => rw [ht] at h; cases h
      | ok bs =>
        rw [ht] at h
        rcases List.mem_cons.mp ha with rfl | hmem
        · exact ⟨b, hx⟩
        · exact ih bs ht a hmem

/-- Position-wise reading of a successful element-wise loop. -/
theorem exceptMapList_ok_get {α β : Type} (f : α → Except PyErr β)
    (l : List α) (r : List β) (h : exceptMapList f l = .ok r) :
    ∀ i a, l.get? i = some a → ∃ b, f a = .ok b ∧ r.get? i = some b := by
  induction l generalizing r with
  | nil => intro i a ha; cases ha
  | cons x t ih =>
    intro i a ha
    unfold exceptMapList at h
    cases hx : f x with
    | error e => rw [hx] at h; cases h
    | ok b =>
      rw [hx] at h
      cases ht : exceptMapList f t with
      | error e => rw [ht] at h; cases h
      | ok bs =>
        rw [ht] at h
        cases h
        cases i with
        | zero => cases ha; exact ⟨b, hx, rfl⟩
        | succ j => exact ih bs ht j a ha

theorem get?_zip_of_get? {α β : Type} :
    ∀ (as : List α) (bs : List β) (i : Nat) (a : α) (b : β),
      as.get? i = some a → bs.get? i = some b →
      (as.zip bs).get? i = some (a, b) := by
  intro as
  induction as with
  | nil =>
    intro bs i a b ha hb
    simp at ha
  | cons x t ih =>
    intro bs i a b ha hb
    cases bs with
    | nil => simp at hb
    | cons y u =>
      cases i with
      | zero =>
        simp only [List.get?] at ha hb
        injection ha with ha1
        injection hb with hb1
        rw [← ha1, ← hb1]
        rfl
      | succ j =>
        simp only [List.get?] at ha hb
        exact ih u j a b ha hb

/-! ### Claim C10 -/

/-- C10: `linear_reg(y, x, add_const=True)` and
`linear_reg(y, x, add_const=False)` produce the same fitted model — the
flag only controls a defensive copy (a fresh, value-equal frame), while
the constant column is prepended unconditionally in both cases before
OLS is run. -/
theorem c10_add_const_flag_is_inert :
    ∀ (solver : List (List ℚ) → List ℚ → List ℚ) (y : List (Option ℚ))
      (x : Frame ℚ), linear_reg solver y x true = linear_reg solver y x false :=
  fun _ _ _ => rfl

/-! ### Claim C9 -/

/-- C9: for every frequency tag other than `'D'` and `'M'`, `get_returns`
and `retrieve_factor_returns` raise an unhandled `UnboundLocalError`: the
`match` over the tag has no default case, `df_returns` is never assigned,
and the column-renaming line fails.  No fallback to monthly, no
domain-specific error. -/
theorem c9_unknown_frequency_raises_unbound_local :
    ∀ (fetch : String → List (Date × ℚ)) (tickers : List String)
      (factors : List (String × String)) (freq : String),
      freq ≠ "D" → freq ≠ "M" →
      get_returns fetch tickers freq = .error .unboundLocalError
      ∧ retrieve_factor_returns fetch factors freq
          = .error .unboundLocalError := by
  intro fetch tickers factors freq hD hM
  constructor
  · unfold get_returns
    split
    · exact absurd rfl hD
    · exact absurd rfl hM
    · rfl
  · unfold retrieve_factor_returns
    split
    · exact absurd rfl hD
    · exact absurd rfl hM
    · rfl

theorem c9_witness :
    get_returns (fun _ => []) [] "W" = .error .unboundLocalError
    ∧ retrieve_factor_returns (fun _ => []) [] "W"
        = .error .unboundLocalError :=
  c9_unknown_frequency_raises_unbound_local (fun _ => []) [] [] "W"
    (by decide) (by decide)

/-! ### Claim C8 -/

/-- C8: no estimator mutates its shared inputs.  Re-run over the explicit
frame heap, `regression_vif`, `linear_reg`, `multiple_lin_reg` and
`lasso_lars_regression` only allocate (defensive copies, `add_constant`
results, locally built result frames); a lookup of any pre-existing
reference — in particular the design matrix and the instrument return
table — is unchanged by the call. -/
theorem c8_no_input_mutation :
    (∀ (rsq : List (List ℚ) → List ℚ → ℚ) (w : World ℚ) (xr : Nat),
      xr < w.length →
      (regression_vifH rsq w xr).1.get? xr = w.get? xr)
    ∧ (∀ (solver : List (List ℚ) → List ℚ → List ℚ) (w : World ℚ)
        (yv : List (Option ℚ)) (xr : Nat) (ac : Bool), xr < w.length →
        (linear_regH solver w yv xr ac).1.get? xr = w.get? xr)
    ∧ (∀ (solver : List (List ℚ) → List ℚ → List ℚ) (w : World ℚ)
        (r1 r2 : Nat) (ac : Bool), r1 < w.length → r2 < w.length →
        (multiple_lin_regH solver w r1 r2 ac).1.get? r1 = w.get? r1
        ∧ (multiple_lin_regH solver w r1 r2 ac).1.get? r2 = w.get? r2)
    ∧ (∀ (path : List (List ℝ) → List ℝ → List LarsStep)
        (solve : ℝ → List (List ℝ) → List ℝ → List ℝ) (w : World ℝ)
        (r1 r2 : Nat), r1 < w.length → r2 < w.length →
        (lasso_lars_regressionH path solve w r1 r2).1.get? r1 = w.get? r1
        ∧ (lasso_lars_regressionH path solve w r1 r2).1.get? r2
            = w.get? r2) := by
  refine ⟨?_, ?_, ?_, ?_⟩
  · intro rsq w xr h
    unfold regression_vifH
    cases hx : w.get? xr with
    | none => exact hx
    | some X => exact (get?_worldAlloc w _ xr h).trans hx
  · intro solver w yv xr ac h
    unfold linear_regH
    cases hx : w.get? xr with
    | none => exact hx
    | some x =>
      cases ac with
      | false => exact hx
      | true => exact (get?_worldAlloc w _ xr h).trans hx
  · intro solver w r1 r2 ac h1 h2
    unfold multiple_lin_regH
    cases hx : w.get? r1 with
    | none => exact ⟨hx, rfl⟩
    | some rets =>
      cases hy : w.get? r2 with
      | none => exact ⟨(rfl : w.get? r1 = w.get? r1).trans hx, hy⟩
      | some facs =>
        exact ⟨(get?_foldl_alloc
            (fun _ => Frame.mk facs.colNames facs.index facs.cols)
            rets.colNames w r1 h1).trans hx,
          (get?_foldl_alloc
            (fun _ => Frame.mk facs.colNames facs.index facs.cols)
            rets.colNames w r2 h2).trans hy⟩
  · intro path solve w r1 r2 h1 h2
    unfold lasso_lars_regressionH
    cases hx : w.get? r1 with
    | none => exact ⟨hx, rfl⟩
    | some rets =>
      cases hy : w.get? r2 with
      | none => exact ⟨(rfl : w.get? r1 = w.get? r1).trans hx, hy⟩
      | some facs =>
        exact ⟨(get?_foldl_alloc
            (fun _ => Frame.mk facs.colNames facs.index facs.cols)
            rets.colNames w r1 h1).trans hx,
          (get?_foldl_alloc
            (fun _ => Frame.mk facs.colNames facs.index facs.cols)
            rets.colNames w r2 h2).trans hy⟩

theorem c8_witness :
    ((regression_vifH (fun _ _ => 0) [⟨["f"], [], [[]]⟩] 0).1.get? 0
      = ([⟨["f"], [], [[]]⟩] : World ℚ).get? 0)
    ∧ ((linear_regH (fun _ y => y) [⟨["f"], [], [[]]⟩] [] 0 true).1.get? 0
      = ([⟨["f"], [], [[]]⟩] : World ℚ).get? 0)
    ∧ ((multiple_lin_regH (fun _ y => y) [⟨["f"], [], [[]]⟩] 0 0 true).1.get? 0
      = ([⟨["f"], [], [[]]⟩] : World ℚ).get? 0)
    ∧ ((lasso_lars_regressionH (fun _ _ => []) (fun _ _ _ => [])
        [(⟨["f"], [], [[]]⟩ : Frame ℝ)] 0 0).1.get? 0
      = ([(⟨["f"], [], [[]]⟩ : Frame ℝ)] : World ℝ).get? 0) :=
  ⟨c8_no_input_mutation.1 (fun _ _ => 0) _ 0 (by decide),
   c8_no_input_mutation.2.1 (fun _ y => y) _ [] 0 true (by decide),
   (c8_no_input_mutation.2.2.1 (fun _ y => y) _ 0 0 true (by decide)
     (by decide)).1,
   (c8_no_input_mutation.2.2.2 (fun _ _ => []) (fun _ _ _ => []) _ 0 0
     (by decide) (by decide)).1⟩

/-! ### Claim C3 -/

/-- C3 counterexample: on an exactly rank-deficient design (two identical
factor columns, so the matrix stays rank-deficient after the constant is
prepended) `linear_reg` raises nothing — there is no `SingularDesignError`
anywhere in the code — and hands the design to the library's default
pinv solve (here instantiated by an explicit coefficient function to
exhibit the returned fit). -/
theorem c3_rank_deficient_design_returns_ok :
    linear_reg (fun m _ => m.map (fun _ => (0 : ℚ))) [some 1, some 2]
      ⟨["f1", "f2"], [⟨2020, 1, 1⟩, ⟨2020, 2, 1⟩],
        [[some 1, some 2], [some 1, some 2]]⟩ true
      = .ok ⟨["const", "x1", "x2"], [some 0, some 0, some 0]⟩ := by rfl

/-- C3 (amended): the dense estimator never raises `SingularDesignError`
(no such error exists in the code, and the caller has no fallback-policy
parameter): for every fully observed, well-shaped design — exactly
rank-deficient or not — `linear_reg` returns the fit of statsmodels'
default pinv least-squares solve (deterministic, least-norm), raising
only when the numeric stack rejects NaN cells or mismatched shapes. -/
theorem c3_linear_reg_total_on_clean_input :
    ∀ (solver : List (List ℚ) → List ℚ → List ℚ) (y : List (Option ℚ))
      (x : Frame ℚ) (ac : Bool),
      (∀ v ∈ y, v.isSome = true) →
      (∀ c ∈ x.cols, (∀ v ∈ c, v.isSome = true) ∧ c.length = x.index.length) →
      y.length = x.index.length →
      linear_reg solver y x ac =
        .ok ⟨exogNames (add_constant_values (x.cols.map stripCol)).1
               x.cols.length,
             (solver (add_constant_values (x.cols.map stripCol)).2
               (stripCol y)).map some⟩ := by
  intro solver y x ac hy hx hlen
  have hy' : (y.any (·.isNone)) = false := by
    simp only [List.any_eq_false]
    intro v hv
    rcases Option.isSome_iff_exists.mp (hy v hv) with ⟨w, rfl⟩
    simp
  have hx1 : (x.cols.any (fun c => c.any (·.isNone))) = false := by
    simp only [List.any_eq_false]
    intro c hc
    simp only [Bool.not_eq_true, List.any_eq_false]
    intro v hv
    rcases Option.isSome_iff_exists.mp ((hx c hc).1 v hv) with ⟨w, rfl⟩
    simp
  have hylen : (y.length != x.index.length) = false := by
    simp [hlen]
  have hx2 : (x.cols.any (fun c => c.length != x.index.length)) = false := by
    simp only [List.any_eq_false]
    intro c hc
    simp [(hx c hc).2]
  cases ac <;>
    simp [linear_reg, olsFitOf, hy', hx1, hylen, hx2, stripCol]

theorem c3_witness :
    linear_reg (fun _ y => y) [some (5 : ℚ), some 6]
      ⟨["f"], [⟨2021, 3, 2⟩, ⟨2021, 4, 2⟩], [[some 7, some 8]]⟩ false
      = .ok ⟨exogNames (add_constant_values
               ((⟨["f"], [⟨2021, 3, 2⟩, ⟨2021, 4, 2⟩],
                  [[some 7, some 8]]⟩ : Frame ℚ).cols.map stripCol)).1
               (⟨["f"], [⟨2021, 3, 2⟩, ⟨2021, 4, 2⟩],
                 [[some 7, some 8]]⟩ : Frame ℚ).cols.length,
             (stripCol [some 5, some 6]).map some⟩
    ∧ exogNames (add_constant_values
        ((⟨["f"], [⟨2021, 3, 2⟩, ⟨2021, 4, 2⟩],
           [[some 7, some 8]]⟩ : Frame ℚ).cols.map stripCol)).1 1
      = ["const", "x1"] :=
  ⟨c3_linear_reg_total_on_clean_input (fun _ y => y) [some 5, some 6]
    ⟨["f"], [⟨2021, 3, 2⟩, ⟨2021, 4, 2⟩], [[some 7, some 8]]⟩ false
    (by decide) (by decide) (by decide), by decide⟩

/-! ### Claim C4 -/

theorem exists_mem_zip_right {α β : Type} :
    ∀ (as : List α) (bs : List β), as.length = bs.length → ∀ b ∈ bs,
      ∃ a, (a, b) ∈ as.zip bs := by
  intro as bs
  induction bs generalizing as with
  | nil => intro _ b hb; cases hb
  | cons y t ih =>
    intro hlen b hb
    cases as with
    | nil => simp at hlen
    | cons a as2 =>
      rcases List.mem_cons.mp hb with rfl | hmem
      · exact ⟨a, List.mem_cons_self _ _⟩
      · rcases ih as2 (by simpa using hlen) b hmem with ⟨a2, ha2⟩
        exact ⟨a2, List.mem_cons_of_mem _ ha2⟩

/-- C4 counterexample: a batch of two instruments where only the second
one's series is defective (a missing value).  The sparse estimator
returns one aggregate exception and delivers no result for any
instrument, although the first instrument's fit succeeded; the dense
estimator raises nothing at all — statsmodels never checks the
dependent series — and returns a table in which the defective
instrument's column is silently all-NaN.  Neither matches "the failure
is reported per instrument". -/
theorem c4_one_bad_instrument_counterexample :
    lasso_lars_regression (fun _ _ => []) (fun _ _ _ => [0])
      ⟨["A", "B"], [⟨2020, 1, 1⟩, ⟨2020, 2, 1⟩],
        [[some 1, some 2], [some 1, none]]⟩
      ⟨["f"], [⟨2020, 1, 1⟩, ⟨2020, 2, 1⟩], [[some 3, some 4]]⟩
      = .error .valueError
    ∧ multiple_lin_reg (fun m _ => m.map (fun _ => (0 : ℚ)))
      ⟨["A", "B"], [⟨2020, 1, 1⟩, ⟨2020, 2, 1⟩],
        [[some 1, some 2], [some 1, none]]⟩
      ⟨["f"], [⟨2020, 1, 1⟩, ⟨2020, 2, 1⟩], [[some 3, some 4]]⟩ true
      = .ok ⟨["f"], ["A", "B"], [[some 0], [none]]⟩ := ⟨by rfl, by rfl⟩

/-- A clean, well-shaped design makes `linear_reg` return the `OLS`
outcome, whatever the dependent series holds. -/
theorem linear_reg_on_clean_design (solver : List (List ℚ) → List ℚ → List ℚ)
    (y : List (Option ℚ)) (x : Frame ℚ) (ac : Bool)
    (hx : ∀ c ∈ x.cols, (∀ v ∈ c, v.isSome = true) ∧ c.length = x.index.length)
    (hylen : y.length = x.index.length) :
    linear_reg solver y x ac = .ok (olsFitOf solver x y) := by
  have hx1 : (x.cols.any (fun c => c.any (·.isNone))) = false := by
    simp only [List.any_eq_false]
    intro c hc
    simp only [Bool.not_eq_true, List.any_eq_false]
    intro v hv
    rcases Option.isSome_iff_exists.mp ((hx c hc).1 v hv) with ⟨w, rfl⟩
    simp
  have hyl : (y.length != x.index.length) = false := by
    simp [hylen]
  have hx2 : (x.cols.any (fun c => c.length != x.index.length)) = false := by
    simp only [List.any_eq_false]
    intro c hc
    simp [(hx c hc).2]
  cases ac <;> simp [linear_reg, hx1, hyl, hx2]

/-- A loop whose body succeeds everywhere returns the mapped results. -/
theorem exceptMapList_ok_of_forall {α β : Type} (f : α → Except PyErr β)
    (g : α → β) (l : List α) (h : ∀ a ∈ l, f a = .ok (g a)) :
    exceptMapList f l = .ok (l.map g) := by
  induction l with
  | nil => rfl
  | cons x t ih =>
    unfold exceptMapList
    rw [h x (List.mem_cons_self _ _),
      ih (fun a ha => h a (List.mem_cons_of_mem _ ha))]
    rfl

theorem olsFitOf_names (solver : List (List ℚ) → List ℚ → List ℚ)
    (x : Frame ℚ) (y : List (Option ℚ)) :
    (olsFitOf solver x y).names
      = exogNames (add_constant_values (x.cols.map stripCol)).1
          x.cols.length := by
  unfold olsFitOf
  split <;> rfl

/-- The statsmodels parameter names `x1, x2, ...` never collide with the
reserved constant name. -/
theorem xname_ne_const (i : Nat) : ("x" ++ toString (i + 1)) ≠ "const" := by
  intro h
  have hd : ('x' :: (toString (i + 1)).data) = "const".data :=
    congrArg String.data h
  injection hd with h1 h2
  exact absurd h1 (by decide)

theorem map_snd_zip_replicate {α : Type} :
    ∀ (xs : List String) (v : α),
      ((xs.zip (List.replicate xs.length v)).map Prod.snd)
        = List.replicate xs.length v := by
  intro xs v
  induction xs with
  | nil => rfl
  | cons a t ih =>
    simp only [List.length_cons, List.replicate_succ, List.zip_cons_cons,
      List.map_cons]
    rw [ih]

/-- Dropping the `const` row of an all-NaN parameter vector leaves one
NaN per factor. -/
theorem dropConstRow_all_nan (xs : List String)
    (hx : ∀ s ∈ xs, (s != "const") = true) :
    dropConstRow ⟨"const" :: xs, List.replicate ("const" :: xs).length none⟩
      = List.replicate xs.length (none : Option ℚ) := by
  unfold dropConstRow
  simp only [List.length_cons, List.replicate_succ, List.zip_cons_cons,
    List.filter_cons]
  rw [if_neg (show ¬ ((("const" != "const") = true)) by simp)]
  rw [List.filter_eq_self.mpr ?_, map_snd_zip_replicate]
  intro q hq
  obtain ⟨s, v⟩ := q
  exact hx s (List.of_mem_zip hq).1

/-- C4 (amended): per-instrument failure is not reported per instrument
in either estimator.  Sparse batch: the loop has no exception handling,
so the first instrument whose fit raises (scikit-learn rejects a NaN in
the series) aborts the whole call with one aggregate exception and no
instrument's fit is reported.  Dense batch: statsmodels never checks the
dependent series (`missing='none'`), so a defective instrument raises
nothing — the call returns a table in which that instrument's column is
silently all-NaN while the other instruments' fits complete; a dense fit
can only raise through the shared design, aborting the whole batch. -/
theorem c4_sparse_aborts_dense_silent_nan :
    (∀ (path : List (List ℝ) → List ℝ → List LarsStep)
      (solve : ℝ → List (List ℝ) → List ℝ → List ℝ) (rets facs : Frame ℝ),
      rets.colNames.length = rets.cols.length →
      (∃ c ∈ rets.cols, none ∈ c) →
      ∃ e, lasso_lars_regression path solve rets facs = .error e)
    ∧ (∀ (solver : List (List ℚ) → List ℚ → List ℚ) (rets facs : Frame ℚ)
      (ac : Bool),
      rets.colNames.length = rets.cols.length →
      rets.cols ≠ [] →
      facs.cols.length = facs.colNames.length →
      (∀ c ∈ facs.cols,
        (∀ v ∈ c, v.isSome = true) ∧ c.length = facs.index.length) →
      (add_constant_values (facs.cols.map stripCol)).1 = true →
      (∀ c ∈ rets.cols, c.length = facs.index.length) →
      ∃ r, multiple_lin_reg solver rets facs ac = .ok r
        ∧ r.columns = rets.colNames
        ∧ (∀ i c, rets.cols.get? i = some c → none ∈ c →
            r.data.get? i
              = some (List.replicate facs.cols.length none))) := by
  constructor
  · intro path solve rets facs hlen hex
    rcases hex with ⟨c, hc, hnone⟩
    rcases exists_mem_zip_right rets.colNames rets.cols hlen c hc with ⟨nm, hmem⟩
    have hany : (c.any (·.isNone)) = true :=
      List.any_eq_true.mpr ⟨none, hnone, rfl⟩
    have herr : lassoLoopBody path solve facs (nm, c) = .error .valueError := by
      simp [lassoLoopBody, hany]
    cases hres : exceptMapList (lassoLoopBody path solve facs)
        (rets.colNames.zip rets.cols) with
    | error e =>
      refine ⟨e, ?_⟩
      unfold lasso_lars_regression
      rw [hres]
    | ok coefs =>
      rcases exceptMapList_ok_forall _ _ _ hres (nm, c) hmem with ⟨b, hb⟩
      rw [herr] at hb
      cases hb
  · intro solver rets facs ac hwf hne hk hfclean hadded hshape
    have hclean : ∀ p ∈ rets.colNames.zip rets.cols,
        linear_reg solver p.2 facs true = .ok (olsFitOf solver facs p.2) := by
      intro p hp
      obtain ⟨nm, c⟩ := p
      exact linear_reg_on_clean_design solver c facs true hfclean
        (hshape c (List.of_mem_zip hp).2)
    have hfits := exceptMapList_ok_of_forall
      (fun p => linear_reg solver p.2 facs true)
      (fun p : String × List (Option ℚ) => olsFitOf solver facs p.2)
      (rets.colNames.zip rets.cols) hclean
    have hzlen : (rets.colNames.zip rets.cols).length
        = rets.colNames.length := by
      rw [List.length_zip, hwf, min_self]
    obtain ⟨p0, zrest, hzip⟩ : ∃ p0 zrest,
        rets.colNames.zip rets.cols = p0 :: zrest := by
      cases hz : rets.colNames.zip rets.cols with
      | nil =>
        exfalso
        rw [hz] at hzlen
        exact hne (List.length_eq_zero.mp (hwf ▸ hzlen.symm))
      | cons a b => exact ⟨a, b, rfl⟩
    have hx_ne : ∀ s ∈ (List.range facs.cols.length).map
        (fun i => "x" ++ toString (i + 1)), (s != "const") = true := by
      intro s hs
      rcases List.mem_map.mp hs with ⟨i, _, rfl⟩
      exact bne_iff_ne.mpr (xname_ne_const i)
    have hnames : ∀ (y : List (Option ℚ)), (olsFitOf solver facs y).names
        = "const" :: (List.range facs.cols.length).map
            (fun i => "x" ++ toString (i + 1)) := by
      intro y
      rw [olsFitOf_names, hadded]
      rfl
    have hfillen : ∀ n : Nat, (((List.range n).map
        (fun i => "x" ++ toString (i + 1))).filter
          (fun s => s != "const")).length = n := by
      intro n
      rw [List.filter_eq_self.mpr ?_]
      · simp
      · intro s hs
        rcases List.mem_map.mp hs with ⟨i, _, rfl⟩
        exact bne_iff_ne.mpr (xname_ne_const i)
    have hmain : multiple_lin_reg solver rets facs ac
        = .ok ⟨facs.colNames, rets.colNames,
            ((rets.colNames.zip rets.cols).map
              (fun p => olsFitOf solver facs p.2)).map dropConstRow⟩ := by
      unfold multiple_lin_reg
      rw [hfits, hzip]
      simp only [List.map_cons, List.head?_cons, Option.map_some',
        Option.getD_some, hnames p0.2, List.filter_cons]
      have hzr : zrest.length + 1 = rets.colNames.length := by
        rw [← hzlen, hzip]
        simp
      simp [hfillen, hk, hzr]
    refine ⟨_, hmain, rfl, ?_⟩
    intro i c hci hnone
    have hi : i < rets.cols.length := by
      by_contra hge
      rw [List.get?_eq_none.mpr (Nat.le_of_not_lt hge)] at hci
      cases hci
    obtain ⟨nm, hnm⟩ : ∃ nm, rets.colNames.get? i = some nm :=
      ⟨_, List.get?_eq_get (hwf ▸ hi)⟩
    have hzget := get?_zip_of_get? _ _ i nm c hnm hci
    show (((rets.colNames.zip rets.cols).map
        (fun p => olsFitOf solver facs p.2)).map dropConstRow).get? i
      = some (List.replicate facs.cols.length none)
    rw [List.get?_map, List.get?_map, hzget]
    simp only [Option.map_some']
    have hcany : (c.any (·.isNone)) = true :=
      List.any_eq_true.mpr ⟨none, hnone, rfl⟩
    have hfit : olsFitOf solver facs c
        = ⟨"const" :: (List.range facs.cols.length).map
            (fun i => "x" ++ toString (i + 1)),
           List.replicate ("const" :: (List.range facs.cols.length).map
            (fun i => "x" ++ toString (i + 1))).length none⟩ := by
      simp only [olsFitOf, hcany, hadded, exogNames, if_true]
    rw [hfit, dropConstRow_all_nan _ hx_ne]
    simp

theorem c4_witness :
    (∃ e, lasso_lars_regression (fun _ _ => []) (fun _ _ _ => [])
      ⟨["B"], [⟨2020, 1, 1⟩], [[(none : Option ℝ)]]⟩
      ⟨["f"], [⟨2020, 1, 1⟩], [[some 3]]⟩ = .error e)
    ∧ (∃ r, multiple_lin_reg (fun _ y => y)
        ⟨["B"], [⟨2020, 1, 1⟩, ⟨2020, 2, 1⟩], [[some 1, none]]⟩
        ⟨["f"], [⟨2020, 1, 1⟩, ⟨2020, 2, 1⟩], [[some 3, some 4]]⟩ false
        = .ok r
      ∧ r.columns = ["B"]
      ∧ (∀ i c, (⟨["B"], [⟨2020, 1, 1⟩, ⟨2020, 2, 1⟩],
            [[some 1, none]]⟩ : Frame ℚ).cols.get? i = some c → none ∈ c →
          r.data.get? i = some (List.replicate 1 none))) :=
  ⟨c4_sparse_aborts_dense_silent_nan.1 (fun _ _ => []) (fun _ _ _ => [])
      ⟨["B"], [⟨2020, 1, 1⟩], [[none]]⟩
      ⟨["f"], [⟨2020, 1, 1⟩], [[some 3]]⟩ (by decide)
      ⟨[none], by simp, by simp⟩,
   c4_sparse_aborts_dense_silent_nan.2 (fun _ y => y)
      ⟨["B"], [⟨2020, 1, 1⟩, ⟨2020, 2, 1⟩], [[some 1, none]]⟩
      ⟨["f"], [⟨2020, 1, 1⟩, ⟨2020, 2, 1⟩], [[some 3, some 4]]⟩ false
      (by decide) (by decide) (by decide) (by decide) (by decide)
      (by decide)⟩

/-! ### Claim C6 -/

/-- C6 counterexample: on a design that already contains a constant
column, `add_constant` (default `has_constant='skip'`) adds nothing, so
`regression_vif` does NOT prepend the all-ones column and its output has
no row under the reserved name `const` — the claim's unconditional
"prepends" fails. -/
theorem c6_existing_constant_column_not_prepended :
    (regression_vif (fun _ _ => 0)
      ⟨["ones"], [⟨2020, 1, 1⟩, ⟨2020, 2, 1⟩], [[some 1, some 1]]⟩).varNames
      = ["ones"]
    ∧ (regression_vif (fun _ _ => 0)
        ⟨["ones"], [⟨2020, 1, 1⟩, ⟨2020, 2, 1⟩], [[some 1, some 1]]⟩).vifs.length
      = 1
    ∧ (regression_vif (fun _ _ => 0)
        ⟨["ones"], [⟨2020, 1, 1⟩, ⟨2020, 2, 1⟩], [[some 1, some 1]]⟩).varNames
      ≠ "const" :: ["ones"] := by
  exact ⟨by decide, by decide, by decide⟩

/-- C6 (amended): unless some column of `X` is already constant and
nonzero (statsmodels `has_constant='skip'`), `regression_vif` prepends
the all-ones column under the reserved name `const` and reports, in the
input column order with the constant first, one row per column `i` with
`VIF_i = 1 / (1 - R²_i)` where `R²_i` is the library's coefficient of
determination of the OLS regression of column `i` on the remaining
columns; at `R²_i = 1` the IEEE division yields the explicit infinite
sentinel instead of raising. -/
theorem c6_vif_order_formula_and_sentinel :
    ∀ (rsq : List (List ℚ) → List ℚ → ℚ) (X : Frame ℚ),
      (∀ c ∈ X.cols, isNonzeroConstColOpt c = false) →
      (regression_vif rsq X).varNames = "const" :: X.colNames
      ∧ (regression_vif rsq X).vifs.length = X.cols.length + 1
      ∧ (∀ i, (regression_vif rsq X).vifs.get? i
          = if i < X.cols.length + 1 then
              some (variance_inflation_factor rsq
                ((add_constant_frame X).cols.map stripCol) i)
            else none)
      ∧ (∀ (m : List (List ℚ)) (i : Nat),
          rsq (m.eraseIdx i) ((m.get? i).getD []) = 1 →
          variance_inflation_factor rsq m i = .inf)
      ∧ (∀ (m : List (List ℚ)) (i : Nat),
          rsq (m.eraseIdx i) ((m.get? i).getD []) ≠ 1 →
          variance_inflation_factor rsq m i
            = .val (1 / (1 - rsq (m.eraseIdx i) ((m.get? i).getD [])))) := by
  intro rsq X hnc
  have hany : (X.cols.any isNonzeroConstColOpt) = false := by
    simp only [List.any_eq_false]
    intro c hc
    simp [hnc c hc]
  have hadd : add_constant_frame X
      = ⟨"const" :: X.colNames, X.index,
         List.replicate X.index.length (some (1 : ℚ)) :: X.cols⟩ := by
    unfold add_constant_frame
    rw [hany]
    rfl
  refine ⟨?_, ?_, ?_, ?_, ?_⟩
  · unfold regression_vif
    rw [hadd]
  · unfold regression_vif
    rw [hadd]
    simp
  · intro i
    unfold regression_vif
    rw [hadd]
    simp only [List.get?_map]
    by_cases hi : i < X.cols.length + 1
    · rw [if_pos hi, List.get?_range (by simpa using hi)]
      rfl
    · rw [if_neg hi]
      have hnone : (List.range (X.cols.length + 1)).get? i = none := by
        rw [List.get?_eq_none, List.length_range]
        exact Nat.le_of_not_lt hi
      simp only [List.length_cons]
      rw [hnone]
      rfl
  · intro m i h1
    unfold variance_inflation_factor ieeeInv
    rw [h1]
    simp
  · intro m i h1
    unfold variance_inflation_factor ieeeInv
    rw [if_neg (by
      intro h0
      exact h1 (by linarith [sub_eq_zero.mp h0]))]

theorem c6_witness :
    (regression_vif (fun _ _ => (0 : ℚ))
      ⟨["f"], [⟨2020, 1, 1⟩, ⟨2020, 2, 1⟩], [[some 1, some 2]]⟩).varNames
      = "const" :: ["f"]
    ∧ variance_inflation_factor (fun _ _ => (1 : ℚ)) [] 0 = .inf
    ∧ variance_inflation_factor (fun _ _ => (0 : ℚ)) [] 0
      = .val (1 / (1 - 0)) :=
  ⟨(c6_vif_order_formula_and_sentinel (fun _ _ => 0)
      ⟨["f"], [⟨2020, 1, 1⟩, ⟨2020, 2, 1⟩], [[some 1, some 2]]⟩
      (by decide)).1,
   (c6_vif_order_formula_and_sentinel (fun _ _ => 1)
      ⟨["f"], [⟨2020, 1, 1⟩, ⟨2020, 2, 1⟩], [[some 1, some 2]]⟩
      (by decide)).2.2.2.1 [] 0 rfl,
   (c6_vif_order_formula_and_sentinel (fun _ _ => 0)
      ⟨["f"], [⟨2020, 1, 1⟩, ⟨2020, 2, 1⟩], [[some 1, some 2]]⟩
      (by decide)).2.2.2.2 [] 0 (by decide)⟩

/-! ### Claim C2 -/

/-- C2 counterexample: a price series with a single observation (fewer
than 2) makes `get_returns` return successfully with an EMPTY returns
table — no `InsufficientDataError` exists in the code; likewise
`retrieve_factor_returns` on two factors with no overlapping months
returns an empty aligned table instead of raising. -/
theorem c2_short_series_yields_empty_table_not_error :
    get_returns (fun _ => [(⟨2020, 1, 5⟩, (100 : ℚ))]) ["A"] "M"
      = .ok ⟨["A"], [], [[]]⟩
    ∧ retrieve_factor_returns
        (fun s => if s = "X" then [(⟨2020, 1, 10⟩, (1 : ℚ))]
                  else [(⟨2020, 2, 10⟩, (2 : ℚ))])
        [("F", "X"), ("G", "Y")] "M"
      = .ok ⟨["F", "G"], [], [[], []]⟩ := ⟨by rfl, by rfl⟩

/-- C2 (amended): with fewer than 2 observations the monthly returns
computation returns an empty table (and raises nothing), and the
alignment path of `retrieve_factor_returns` never raises at all for the
monthly frequency — an empty aligned window is returned as an empty
table.  No `InsufficientDataError` exists anywhere in the code. -/
theorem c2_insufficient_data_returns_empty_frame :
    (∀ (fetch : String → List (Date × ℚ)) (t : String),
      (fetch t).length ≤ 1 →
      (get_returns fetch [t] "M").map Frame.index = .ok [])
    ∧ (∀ (fetch : String → List (Date × ℚ))
        (factors : List (String × String)),
      ∃ df, retrieve_factor_returns fetch factors "M" = .ok df) := by
  constructor
  · intro fetch t hlen
    have hred : get_returns fetch [t] "M"
        = .ok (setColNames [t]
            (dropna (pctFrame (resampleM (buildPrices fetch [t]))))) := rfl
    rw [hred]
    simp only [Except.map]
    have hbp : buildPrices fetch [t]
        = concatOuter emptyFrame (seriesFrame (sortSeries (fetch t))) := rfl
    rcases hf : fetch t with _ | ⟨⟨d, q⟩, tl⟩
    · rw [show (setColNames [t]
          (dropna (pctFrame (resampleM (buildPrices fetch [t]))))).index
          = (dropna (pctFrame (resampleM (buildPrices fetch [t])))).index
          from rfl, hbp, hf]
      rfl
    · cases tl with
      | nil =>
        rw [show (setColNames [t]
            (dropna (pctFrame (resampleM (buildPrices fetch [t]))))).index
            = (dropna (pctFrame (resampleM (buildPrices fetch [t])))).index
            from rfl, hbp, hf]
        simp [sortSeries, insertByKey, seriesFrame, emptyFrame, concatOuter,
          mergeUnion, lookupDate, List.find?, resampleM, monthsOf,
          lastInMonth, pctFrame, pctCol, ffill, dropna, rowAllSome,
          Nat.add_sub_cancel_left, List.range_succ, List.range_zero]
      | cons p2 tl2 =>
        exfalso
        rw [hf] at hlen
        simp at hlen
  · intro fetch factors
    exact ⟨_, rfl⟩

theorem c2_witness :
    (get_returns (fun _ => []) ["Z"] "M").map Frame.index = .ok []
    ∧ ∃ df, retrieve_factor_returns (fun _ => ([] : List (Date × ℚ)))
        [("F", "X")] "M" = .ok df :=
  ⟨c2_insufficient_data_returns_empty_frame.1 (fun _ => []) "Z" (by decide),
   c2_insufficient_data_returns_empty_frame.2 (fun _ => []) [("F", "X")]⟩

/-! ### Claim C7 -/

/-- C7: names are preserved end-to-end.  The columns of the matrix built
by `retrieve_factor_returns` are exactly the keys of the factor mapping
in insertion order (the loop fetches in that same order and the keys are
assigned positionally), and every successful result table of
`multiple_lin_reg` and `lasso_lars_regression` is indexed by the design
matrix's factor names, in design order, with one column per instrument
in the instrument table's column order — never re-ordered by data
arrival. -/
theorem c7_names_preserved_end_to_end :
    (∀ (fetch : String → List (Date × ℚ)) (factors : List (String × String))
      (df : Frame ℚ), retrieve_factor_returns fetch factors "M" = .ok df →
      df.colNames = factors.map Prod.fst)
    ∧ (∀ (solver : List (List ℚ) → List ℚ → List ℚ) (rets facs : Frame ℚ)
      (ac : Bool) (df : RTable (Option ℚ)),
      multiple_lin_reg solver rets facs ac = .ok df →
      df.index = facs.colNames ∧ df.columns = rets.colNames)
    ∧ (∀ (path : List (List ℝ) → List ℝ → List LarsStep)
      (solve : ℝ → List (List ℝ) → List ℝ → List ℝ) (rets facs : Frame ℝ)
      (df : RTable ℝ),
      lasso_lars_regression path solve rets facs = .ok df →
      df.index = facs.colNames ∧ df.columns = rets.colNames) := by
  refine ⟨?_, ?_, ?_⟩
  · intro fetch factors df h
    have hr : (Except.ok (setColNames (factors.map Prod.fst)
        (dropna (pctFrame (resampleM
          (buildPrices fetch (factors.map Prod.snd)))))) :
        Except PyErr (Frame ℚ)) = .ok df := h
    injection hr with h1
    rw [← h1]
    rfl
  · intro solver rets facs ac df h
    unfold multiple_lin_reg at h
    cases hres : exceptMapList (fun p => linear_reg solver p.2 facs true)
        (rets.colNames.zip rets.cols) with
    | error e => rw [hres] at h; cases h
    | ok fits =>
      rw [hres] at h
      simp only at h
      split at h
      · cases h
      · split at h
        · cases h
        · split at h
          · cases h
          · injection h with h1
            rw [← h1]
            exact ⟨rfl, rfl⟩
  · intro path solve rets facs df h
    unfold lasso_lars_regression at h
    cases hres : exceptMapList (lassoLoopBody path solve facs)
        (rets.colNames.zip rets.cols) with
    | error e => rw [hres] at h; cases h
    | ok coefs =>
      rw [hres] at h
      injection h with h1
      rw [← h1]
      exact ⟨rfl, rfl⟩

theorem c7_witness :
    ((⟨["F"], [], [[]]⟩ : Frame ℚ).colNames
      = ([("F", "X")].map Prod.fst))
    ∧ ((⟨["f"], ["A"], [[some 0]]⟩ : RTable (Option ℚ)).index = ["f"]
        ∧ (⟨["f"], ["A"], [[some 0]]⟩ : RTable (Option ℚ)).columns = ["A"])
    ∧ ((⟨["f"], ["A"],
          [fitOneSparse (fun _ _ => []) (fun _ _ _ => [0]) [[3, 4]] [1, 2]]⟩ :
          RTable ℝ).index = ["f"]
        ∧ (⟨["f"], ["A"],
            [fitOneSparse (fun _ _ => []) (fun _ _ _ => [0]) [[3, 4]]
              [1, 2]]⟩ : RTable ℝ).columns = ["A"]) :=
  ⟨c7_names_preserved_end_to_end.1 (fun _ => []) [("F", "X")]
      ⟨["F"], [], [[]]⟩ rfl,
   c7_names_preserved_end_to_end.2.1 (fun m _ => m.map (fun _ => 0))
      ⟨["A"], [⟨2020, 1, 1⟩, ⟨2020, 2, 1⟩], [[some 1, some 2]]⟩
      ⟨["f"], [⟨2020, 1, 1⟩, ⟨2020, 2, 1⟩], [[some 3, some 4]]⟩ true
      ⟨["f"], ["A"], [[some 0]]⟩ rfl,
   c7_names_preserved_end_to_end.2.2 (fun _ _ => []) (fun _ _ _ => [0])
      ⟨["A"], [⟨2020, 1, 1⟩, ⟨2020, 2, 1⟩], [[some 1, some 2]]⟩
      ⟨["f"], [⟨2020, 1, 1⟩, ⟨2020, 2, 1⟩], [[some 3, some 4]]⟩
      ⟨["f"], ["A"],
        [fitOneSparse (fun _ _ => []) (fun _ _ _ => [0]) [[3, 4]] [1, 2]]⟩
      rfl⟩

/-! ### Claim C5 -/

/-- C5 counterexample: two tickers whose coverage starts in different
months.  The monthly-resampled price table has 3 rows, but the returns
table has 1 row, not 3 − 1 = 2: besides the first row, `dropna()` also
removes the second row, where the late-starting column has no previous
price yet. -/
theorem c5_more_than_first_row_dropped :
    (get_returns
      (fun s => if s = "A" then
          [(⟨2020, 1, 10⟩, (100 : ℚ)), (⟨2020, 2, 10⟩, 110),
           (⟨2020, 3, 10⟩, 121)]
        else [(⟨2020, 2, 15⟩, (50 : ℚ)), (⟨2020, 3, 15⟩, 55)])
      ["A", "B"] "M").map (fun f => f.index.length) = .ok 1
    ∧ (resampleM (buildPrices
        (fun s => if s = "A" then
            [(⟨2020, 1, 10⟩, (100 : ℚ)), (⟨2020, 2, 10⟩, 110),
             (⟨2020, 3, 10⟩, 121)]
          else [(⟨2020, 2, 15⟩, (50 : ℚ)), (⟨2020, 3, 15⟩, 55)])
        ["A", "B"])).index.length = 3
    ∧ (1 : Nat) ≠ 3 - 1 := ⟨by rfl, by rfl, by decide⟩

theorem ffill_all_some {α : Type} (last : Option α) (c : List (Option α))
    (h : ∀ v ∈ c, v.isSome = true) : ffill last c = c := by
  induction c generalizing last with
  | nil => rfl
  | cons v t ih =>
    rcases Option.isSome_iff_exists.mp (h v (List.mem_cons_self _ _)) with
      ⟨w, rfl⟩
    unfold ffill
    rw [ih (some w) (fun u hu => h u (List.mem_cons_of_mem _ hu))]

theorem pctCol_get?_zero (c : List (Option ℚ)) (h : 0 < c.length) :
    (pctCol c).get? 0 = some none := by
  unfold pctCol
  rw [List.get?_map, List.get?_range h]
  rfl

theorem pctCol_get?_pos (c : List (Option ℚ))
    (h : ∀ v ∈ c, v.isSome = true) (t : Nat) (ht : t < c.length)
    (ht0 : t ≠ 0) : ∃ r, (pctCol c).get? t = some (some r) := by
  have hprev : ∃ p, c.get? (t - 1) = some (some p) := by
    have hlt : t - 1 < c.length := lt_of_le_of_lt (Nat.sub_le t 1) ht
    rcases Option.isSome_iff_exists.mp
      (h (c.get ⟨t - 1, hlt⟩) (c.get_mem _ _)) with ⟨p, hp⟩
    exact ⟨p, by rw [List.get?_eq_get hlt, hp]⟩
  have hcur : ∃ q, c.get? t = some (some q) := by
    rcases Option.isSome_iff_exists.mp
      (h (c.get ⟨t, ht⟩) (c.get_mem _ _)) with ⟨q, hq⟩
    exact ⟨q, by rw [List.get?_eq_get ht, hq]⟩
  rcases hprev with ⟨p, hp⟩
  rcases hcur with ⟨q, hq⟩
  refine ⟨q / p - 1, ?_⟩
  unfold pctCol
  rw [List.get?_map, List.get?_range ht]
  simp only [Option.map_some']
  rw [ffill_all_some none c h]
  rw [List.get?_eq_getElem?] at hp hq
  simp [ht0, hp, hq]

theorem filterMap_get?_length (ks : List Nat) (idx : List Date)
    (h : ∀ t ∈ ks, t < idx.length) :
    (ks.filterMap (fun t => idx.get? t)).length = ks.length := by
  induction ks with
  | nil => rfl
  | cons t kt ih =>
    have hlt : t < idx.length := h t (List.mem_cons_self _ _)
    rw [List.filterMap_cons]
    rw [List.get?_eq_get hlt]
    simp only [List.length_cons]
    rw [ih (fun u hu => h u (List.mem_cons_of_mem _ hu))]

theorem length_filter_ne_zero_range (n : Nat) :
    ((List.range n).filter (fun t => t != 0)).length = n - 1 := by
  cases n with
  | zero => rfl
  | succ m =>
    rw [List.range_succ_eq_map]
    rw [List.filter_cons]
    simp only [bne_self_eq_false, Bool.false_eq_true, if_neg]
    rw [List.filter_map]
    have hall : (List.range m).filter ((fun t => t != 0) ∘ Nat.succ)
        = List.range m := by
      apply List.filter_eq_self.mpr
      intro a _
      simp [Function.comp]
    rw [hall]
    simp

theorem dropna_pct_length (f : Frame ℚ) (hne : f.cols ≠ [])
    (hwf : ∀ c ∈ f.cols, c.length = f.index.length)
    (hsome : ∀ c ∈ f.cols, ∀ v ∈ c, v.isSome = true) :
    (dropna (pctFrame f)).index.length = f.index.length - 1 := by
  have hgoal : (dropna (pctFrame f)).index
      = ((List.range f.index.length).filter
          (rowAllSome (f.cols.map pctCol))).filterMap
          (fun t => f.index.get? t) := rfl
  rw [hgoal]
  have hfilter : (List.range f.index.length).filter
      (rowAllSome (f.cols.map pctCol))
      = (List.range f.index.length).filter (fun t => t != 0) := by
    apply List.filter_congr
    intro t htr
    have htn : t < f.index.length := List.mem_range.mp htr
    by_cases h0 : t = 0
    · subst h0
      have hfalse : rowAllSome (f.cols.map pctCol) 0 = false := by
        rcases hcols : f.cols with _ | ⟨c0, rest⟩
        · exact absurd hcols hne
        · have hc0 : (pctCol c0).get? 0 = some none := by
            apply pctCol_get?_zero
            rw [hwf c0 (by rw [hcols]; exact List.mem_cons_self _ _)]
            exact htn
          rw [List.get?_eq_getElem?] at hc0
          unfold rowAllSome
          rw [List.map_cons, List.all_cons]
          simp [hc0]
      rw [hfalse]
      simp
    · have htrue : rowAllSome (f.cols.map pctCol) t = true := by
        unfold rowAllSome
        rw [List.all_eq_true]
        intro c hcm
        rcases List.mem_map.mp hcm with ⟨c0, hc0, rfl⟩
        rcases pctCol_get?_pos c0 (hsome c0 hc0) t
          (by rw [hwf c0 hc0]; exact htn) h0 with ⟨r, hr⟩
        rw [List.get?_eq_getElem?] at hr
        simp [hr]
      rw [htrue]
      simp [h0]
  rw [hfilter]
  rw [filterMap_get?_length _ _ (fun t htm =>
    List.mem_range.mp (List.mem_of_mem_filter htm))]
  exact length_filter_ne_zero_range _

theorem concatOuter_wf {α : Type} (f g : Frame α) :
    ∀ c ∈ (concatOuter f g).cols, c.length = (concatOuter f g).index.length := by
  intro c hc
  unfold concatOuter at hc ⊢
  simp only [List.mem_append, List.mem_map] at hc
  rcases hc with ⟨c0, _, rfl⟩ | ⟨c0, _, rfl⟩ <;> simp

theorem buildPrices_foldl_wf (fetch : String → List (Date × ℚ)) :
    ∀ (syms : List String) (acc : Frame ℚ),
      (∀ c ∈ acc.cols, c.length = acc.index.length) →
      ∀ c ∈ (syms.foldl (fun a s =>
          concatOuter a (seriesFrame (get_stock_prices fetch s))) acc).cols,
        c.length = (syms.foldl (fun a s =>
          concatOuter a (seriesFrame (get_stock_prices fetch s)))
            acc).index.length := by
  intro syms
  induction syms with
  | nil => intro acc hacc; exact hacc
  | cons s t ih =>
    intro acc hacc
    exact ih _ (concatOuter_wf _ _)

theorem buildPrices_wf (fetch : String → List (Date × ℚ))
    (syms : List String) :
    ∀ c ∈ (buildPrices fetch syms).cols,
      c.length = (buildPrices fetch syms).index.length :=
  buildPrices_foldl_wf fetch syms emptyFrame (by intro c hc; cases hc)

theorem concatOuter_cols_length {α : Type} (f g : Frame α) :
    (concatOuter f g).cols.length = f.cols.length + g.cols.length := by
  simp [concatOuter]

theorem buildPrices_cols_length (fetch : String → List (Date × ℚ)) :
    ∀ (syms : List String) (acc : Frame ℚ),
      (syms.foldl (fun a s =>
        concatOuter a (seriesFrame (get_stock_prices fetch s))) acc).cols.length
      = acc.cols.length + syms.length := by
  intro syms
  induction syms with
  | nil => intro acc; simp
  | cons s t ih =>
    intro acc
    rw [List.foldl_cons, ih]
    rw [concatOuter_cols_length]
    simp [seriesFrame]
    omega

theorem resampleM_wf {α : Type} (f : Frame α) :
    ∀ c ∈ (resampleM f).cols, c.length = (resampleM f).index.length := by
  intro c hc
  unfold resampleM at hc ⊢
  simp only [List.mem_map] at hc
  rcases hc with ⟨c0, _, rfl⟩
  simp

theorem resampleM_cols_length {α : Type} (f : Frame α) :
    (resampleM f).cols.length = f.cols.length := by
  simp [resampleM]

/-- C5 (amended): for a nonempty ticker list and frequency `'M'`,
`get_returns` resamples to one row per calendar month (last observation
of the month), applies the percentage change across consecutive months,
and drops every row with a missing cell — always including the first
row.  When every cell of the monthly-resampled table is observed, that
is the only dropped row and the output is exactly one row shorter than
the resampled table; in general (see the counterexample) more rows go
with it. -/
theorem c5_monthly_output_one_shorter_when_fully_observed :
    ∀ (fetch : String → List (Date × ℚ)) (tickers : List String),
      tickers ≠ [] →
      (∀ c ∈ (resampleM (buildPrices fetch tickers)).cols,
        ∀ v ∈ c, v.isSome = true) →
      (get_returns fetch tickers "M").map (fun f => f.index.length)
        = .ok ((resampleM (buildPrices fetch tickers)).index.length - 1) := by
  intro fetch tickers hne hsome
  have hred : get_returns fetch tickers "M"
      = .ok (setColNames tickers
          (dropna (pctFrame (resampleM (buildPrices fetch tickers))))) := rfl
  rw [hred]
  simp only [Except.map]
  have hlen : (setColNames tickers
      (dropna (pctFrame (resampleM (buildPrices fetch tickers))))).index.length
      = (resampleM (buildPrices fetch tickers)).index.length - 1 := by
    show (dropna (pctFrame (resampleM (buildPrices fetch tickers)))).index.length
      = (resampleM (buildPrices fetch tickers)).index.length - 1
    apply dropna_pct_length
    · apply List.ne_nil_of_length_pos
      rw [resampleM_cols_length]
      unfold buildPrices
      rw [buildPrices_cols_length]
      simp only [emptyFrame]
      simpa using List.length_pos.mpr hne
    · exact resampleM_wf _
    · exact hsome
  rw [hlen]

theorem c5_witness :
    (get_returns
      (fun _ => [(⟨2020, 1, 5⟩, (100 : ℚ)), (⟨2020, 2, 5⟩, 110)])
      ["A"] "M").map (fun f => f.index.length)
      = .ok ((resampleM (buildPrices
          (fun _ => [(⟨2020, 1, 5⟩, (100 : ℚ)), (⟨2020, 2, 5⟩, 110)])
          ["A"])).index.length - 1) :=
  c5_monthly_output_one_shorter_when_fully_observed
    (fun _ => [(⟨2020, 1, 5⟩, (100 : ℚ)), (⟨2020, 2, 5⟩, 110)]) ["A"]
    (by decide) (by decide)

/-! ### Claim C1 -/

theorem selBetter_foldl_le (score : LarsStep → ℝ) :
    ∀ (steps : List LarsStep) (acc : Option LarsStep) (b : LarsStep),
      steps.foldl (selBetter score) acc = some b →
      (∀ a, acc = some a → score b ≤ score a)
      ∧ ∀ s ∈ steps, score b ≤ score s := by
  intro steps
  induction steps with
  | nil =>
    intro acc b h
    refine ⟨?_, ?_⟩
    · intro a ha
      rw [ha] at h
      injection h with h1
      rw [h1]
    · intro s hs
      cases hs
  | cons s t ih =>
    intro acc b h
    rw [List.foldl_cons] at h
    rcases ih (selBetter score acc s) b h with ⟨hacc, hmem⟩
    have hsel_pos : ∀ a0, score s < score a0 →
        selBetter score (some a0) s = some s := by
      intro a0 hlt
      show (if score s < score a0 then some s else some a0) = some s
      rw [if_pos hlt]
    have hsel_neg : ∀ a0, ¬score s < score a0 →
        selBetter score (some a0) s = some a0 := by
      intro a0 hlt
      show (if score s < score a0 then some s else some a0) = some a0
      rw [if_neg hlt]
    have hhead : score b ≤ score s ∨ ∃ a, acc = some a ∧ score b ≤ score a := by
      cases hc : acc with
      | none => exact Or.inl (hacc s (by rw [hc]; rfl))
      | some a0 =>
        by_cases hlt : score s < score a0
        · exact Or.inl (hacc s (by rw [hc]; exact hsel_pos a0 hlt))
        · exact Or.inr ⟨a0, rfl, hacc a0 (by rw [hc]; exact hsel_neg a0 hlt)⟩
    refine ⟨?_, ?_⟩
    · intro a ha
      subst ha
      rcases hhead with hbs | ⟨a0, ha0, hba⟩
      · by_cases hlt : score s < score a
        · exact le_trans hbs (le_of_lt hlt)
        · exact hacc a (hsel_neg a hlt)
      · injection ha0 with h2
        rw [h2]
        exact hba
    · intro u hu
      rcases List.mem_cons.mp hu with rfl | humem
      · rcases hhead with hbs | ⟨a0, ha0, hba⟩
        · exact hbs
        · subst ha0
          by_cases hlt : score u < score a0
          · exact hacc u (hsel_pos a0 hlt)
          · exact le_trans hba (le_of_not_lt hlt)
      · exact hmem u humem

/-- The selected path step scores no worse than any step of the path. -/
theorem selectStep_min (score : LarsStep → ℝ) (steps : List LarsStep)
    (b : LarsStep) (h : selectStep score steps = some b) :
    ∀ s ∈ steps, score b ≤ score s :=
  (selBetter_foldl_le score steps none b h).2

theorem sum_map_center_div (c : List ℝ) (μ s : ℝ) :
    (c.map (fun v => (v - μ) / s)).sum = (c.sum - c.length * μ) / s := by
  induction c with
  | nil => simp
  | cons a t ih =>
    simp only [List.map_cons, List.sum_cons, ih, List.length_cons]
    rw [div_add_div_same]
    congr 1
    push_cast
    ring

/-- A standardized column has mean zero: the centering and scaling are
computed on the very observations being standardized. -/
theorem meanR_standardized_col (c : List ℝ) :
    meanR (c.map (fun v => (v - meanR c) / scaleOf c)) = 0 := by
  by_cases hc : c = []
  · subst hc
    simp [meanR]
  · have hn : (c.length : ℝ) ≠ 0 :=
      Nat.cast_ne_zero.mpr (fun h => hc (List.length_eq_zero.mp h))
    have hzero : c.sum - (c.length : ℝ) * meanR c = 0 := by
      unfold meanR
      field_simp
    show (c.map (fun v => (v - meanR c) / scaleOf c)).sum
      / ((c.map (fun v => (v - meanR c) / scaleOf c)).length : ℝ) = 0
    rw [sum_map_center_div c (meanR c) (scaleOf c), hzero, zero_div, zero_div]

/-- Centering a standardized column is the identity — the estimator's
own `fit_intercept` preprocessing does not change the standardized
design. -/
theorem centerCol_standardized (c : List ℝ) :
    centerCol (c.map (fun v => (v - meanR c) / scaleOf c))
      = c.map (fun v => (v - meanR c) / scaleOf c) := by
  unfold centerCol
  rw [meanR_standardized_col]
  simp

theorem standardizeCols_center_id (X : List (List ℝ)) :
    (standardizeCols X).map centerCol = standardizeCols X := by
  unfold standardizeCols
  rw [List.map_map]
  apply List.map_congr_left
  intro c _
  exact centerCol_standardized c

/-- C1: the sparse estimator proceeds in two phases.  For every
successful batch, the reported table is keyed by the factor names and by
the instruments, and instrument `i`'s column is exactly the Phase 2
refit `fitOneSparse` on the unstandardized design; `fitOneSparse` solves
`LassoLars(normalize=True)` — the unit-norm-rescaled fixed-penalty fit
`lassoNormFit` — at the penalty `alphaAIC` selected in Phase 1; and
Phase 1 operates on the in-sample standardized design (every
standardized column has mean zero by the very means and standard
deviations of the observations being fit, and the estimator's own
re-centering leaves it unchanged), selecting a step whose AIC is minimal
over the whole path. -/
theorem c1_sparse_estimator_two_phase :
    ∀ (path : List (List ℝ) → List ℝ → List LarsStep)
      (solve : ℝ → List (List ℝ) → List ℝ → List ℝ)
      (rets facs : Frame ℝ) (df : RTable ℝ),
      rets.colNames.length = rets.cols.length →
      lasso_lars_regression path solve rets facs = .ok df →
      df.index = facs.colNames
      ∧ df.columns = rets.colNames
      ∧ (∀ i nm c, rets.colNames.get? i = some nm →
          rets.cols.get? i = some c →
          df.data.get? i = some (fitOneSparse path solve
            (facs.cols.map stripCol) (stripCol c)))
      ∧ (∀ (X : List (List ℝ)) (y : List ℝ),
          fitOneSparse path solve X y
            = lassoNormFit solve (alphaAIC path X y) X y)
      ∧ (∀ (X : List (List ℝ)) c, c ∈ standardizeCols X → meanR c = 0)
      ∧ (∀ (X : List (List ℝ)),
          (standardizeCols X).map centerCol = standardizeCols X)
      ∧ (∀ (X : List (List ℝ)) (y : List ℝ) (b : LarsStep),
          phase1Sel path X y = some b →
          ∀ st ∈ path (standardizeCols X) (centerCol y),
            aicOf (standardizeCols X) (centerCol y) b
              ≤ aicOf (standardizeCols X) (centerCol y) st) := by
  intro path solve rets facs df hwf h
  unfold lasso_lars_regression at h
  cases hres : exceptMapList (lassoLoopBody path solve facs)
      (rets.colNames.zip rets.cols) with
  | error e =>
    rw [hres] at h
    cases h
  | ok coefs =>
    rw [hres] at h
    injection h with h1
    refine ⟨by rw [← h1], by rw [← h1], ?_, fun X y => rfl, ?_, ?_, ?_⟩
    · intro i nm c hnm hc
      rcases exceptMapList_ok_get _ _ _ hres i (nm, c)
        (get?_zip_of_get? _ _ i nm c hnm hc) with ⟨bcoef, hbody, hget⟩
      unfold lassoLoopBody at hbody
      dsimp only at hbody
      split at hbody
      · simp at hbody
      · split at hbody
        · simp at hbody
        · split at hbody
          · simp at hbody
          · injection hbody with h2
            rw [← h1]
            show coefs.get? i = some (fitOneSparse path solve
              (List.map stripCol facs.cols) (stripCol c))
            rw [hget, ← h2]
    · intro X c hc
      rcases List.mem_map.mp hc with ⟨c0, _, rfl⟩
      exact meanR_standardized_col c0
    · intro X
      exact standardizeCols_center_id X
    · intro X y b hsel st hst
      unfold phase1Sel at hsel
      rw [standardizeCols_center_id X] at hsel
      exact selectStep_min (aicOf (standardizeCols X) (centerCol y))
        (path (standardizeCols X) (centerCol y)) b hsel st hst

theorem c1_witness :
    ((⟨["f"], ["A"],
        [fitOneSparse (fun _ _ => [⟨1, [0]⟩]) (fun _ _ _ => [0])
          [[3, 4]] [1, 2]]⟩ : RTable ℝ).index = ["f"])
    ∧ (fitOneSparse (fun _ _ => [⟨1, [0]⟩]) (fun _ _ _ => [0])
        [[(10 : ℝ), 20]] [5, 6]
        = lassoNormFit (fun _ _ _ => [0])
            (alphaAIC (fun _ _ => [⟨1, [0]⟩]) [[(10 : ℝ), 20]] [5, 6])
            [[(10 : ℝ), 20]] [5, 6])
    ∧ (meanR ([(1 : ℝ), 3].map
        (fun v => (v - meanR [(1 : ℝ), 3]) / scaleOf [(1 : ℝ), 3])) = 0)
    ∧ (aicOf (standardizeCols [[(10 : ℝ), 20]]) (centerCol [5, 6]) ⟨1, [0]⟩
        ≤ aicOf (standardizeCols [[(10 : ℝ), 20]]) (centerCol [5, 6])
            ⟨1, [0]⟩) := by
  have T := c1_sparse_estimator_two_phase (fun _ _ => [⟨1, [0]⟩])
    (fun _ _ _ => [0])
    ⟨["A"], [⟨2020, 1, 1⟩, ⟨2020, 2, 1⟩], [[some 1, some 2]]⟩
    ⟨["f"], [⟨2020, 1, 1⟩, ⟨2020, 2, 1⟩], [[some 3, some 4]]⟩
    ⟨["f"], ["A"],
      [fitOneSparse (fun _ _ => [⟨1, [0]⟩]) (fun _ _ _ => [0])
        [[3, 4]] [1, 2]]⟩ rfl rfl
  refine ⟨T.1, T.2.2.2.1 [[(10 : ℝ), 20]] [5, 6], ?_, ?_⟩
  · exact T.2.2.2.2.1 [[(1 : ℝ), 3]] _ (List.mem_singleton.mpr rfl)
  · exact T.2.2.2.2.2.2 [[(10 : ℝ), 20]] [5, 6] ⟨1, [0]⟩ rfl ⟨1, [0]⟩
      (List.mem_singleton.mpr rfl)

end FactorModel
